import Mathlib

set_option maxRecDepth 8000

/-!
Verification of the shared-memory IPC core of `assassinate`.

The definitions below are a shallow embedding of the Python sources:

* `src/assassinate/ipc/shm.py`    — the SPSC ring buffer (`RingBuffer`);
* `src/assassinate/ipc/protocol.py` — the MessagePack codec
  (`serialize_call`, `deserialize_response`);
* `src/assassinate/ipc/client.py` — the async RPC pump (`MsfClient`);
* `src/assassinate/ipc/sync.py`   — the synchronous façade.

Machine integers are modelled as `Nat`/`Int`; byte strings as `List Nat`
with entries below 256; fallible operations return explicit outcome
values mirroring the exceptions the Python code raises.
-/

namespace Assassinate

/-! ## Ring buffer (src/assassinate/ipc/shm.py)

`RingBuffer` state. The mapping has layout
`[write_pos: 8][read_pos: 8][padding: 48][data: capacity]`; the two
counters are modelled as fields and `mem` models the data area
(physical bytes 64 .. 64+capacity of the mapping, which end exactly at
the end of the mapping). -/

structure Ring where
  capacity : Nat
  write_pos : Nat
  read_pos : Nat
  mem : List Nat
deriving DecidableEq, Repr

/-- `struct.pack("<I", n)`: four little-endian bytes (caller guarantees
`n < 2^32`; `try_write` models the out-of-range `struct.error` case
separately). -/
def u32le (n : Nat) : List Nat :=
  [n % 256, n / 256 % 256, n / 65536 % 256, n / 16777216 % 256]

/-- `struct.unpack("<I", b)` on exactly four bytes. -/
def decodeU32le : List Nat → Nat
  | [b0, b1, b2, b3] => b0 + b1 * 256 + b2 * 65536 + b3 * 16777216
  | _ => 0

/-- An in-range `mmap` write: splice `bs` into `mem` at offset `off`.
Only used on in-range writes (`off + bs.length ≤ mem.length`); the
out-of-range case is a `ValueError` branch in `try_write`. -/
def writeBytes (mem : List Nat) (off : Nat) (bs : List Nat) : List Nat :=
  mem.take off ++ bs ++ mem.drop (off + bs.length)

/-- Outcome of `RingBuffer.try_write`: success, `BufferFullError`, a
`ValueError` raised by `mmap.write` when the chunk does not fit in the
mapping, or a `struct.error` from packing a length `≥ 2^32`. -/
inductive WriteOutcome where
  | ok
  | bufferFull
  | valueError
  | structError
deriving DecidableEq, Repr

/-- `RingBuffer.try_write(data)` (shm.py lines 112-140).  Returns the
outcome together with the resulting state.  The available-space check
compares Python ints, hence the `Int` subtraction.  On the happy path
the 4-byte little-endian length header and then the payload are written
at `(write_pos % capacity)` into the data area, and `write_pos` is
advanced by `4 + len(data)`.  `mmap.write` refuses (whole, with
`ValueError`) any chunk extending past the end of the mapping, which for
the data area is physical offset `64 + capacity`; a straddling frame
therefore fails after the header (if the header itself fits) with no
position update. -/
def try_write (r : Ring) (data : List Nat) : WriteOutcome × Ring :=
  let msgSize := 4 + data.length
  let available : Int := (r.capacity : Int) - ((r.write_pos : Int) - (r.read_pos : Int))
  if available < (msgSize : Int) then (.bufferFull, r)
  else if 4294967296 ≤ data.length then (.structError, r)
  else
    let off := r.write_pos % r.capacity
    if r.capacity < off + 4 then (.valueError, r)
    else
      let r1 : Ring := { r with mem := writeBytes r.mem off (u32le data.length) }
      if r.capacity < off + 4 + data.length then (.valueError, r1)
      else
        (.ok, { r1 with
                  mem := writeBytes r1.mem (off + 4) data,
                  write_pos := r.write_pos + msgSize })

/-- Outcome of `RingBuffer.try_read`: a payload, `BufferEmptyError`, or
a `struct.error` when fewer than 4 header bytes remain in the mapping
(`mmap.read` truncates at end of map and `struct.unpack` then fails). -/
inductive ReadOutcome where
  | ok (data : List Nat)
  | bufferEmpty
  | structError
deriving DecidableEq, Repr

/-- `RingBuffer.try_read()` (shm.py lines 142-169).  If the positions
are equal it fails with `BufferEmptyError`; otherwise it reads the
4-byte length at `(read_pos % capacity)`, reads that many payload bytes
(`mmap.read` truncates at the end of the mapping), and advances
`read_pos` by `4 + msg_len`. -/
def try_read (r : Ring) : ReadOutcome × Ring :=
  if r.write_pos = r.read_pos then (.bufferEmpty, r)
  else
    let off := r.read_pos % r.capacity
    let headerBytes := (r.mem.drop off).take 4
    if headerBytes.length < 4 then (.structError, r)
    else
      let msgLen := decodeU32le headerBytes
      let data := (r.mem.drop (off + 4)).take msgLen
      (.ok data, { r with read_pos := r.read_pos + 4 + msgLen })

/-- The framed form of one payload: 4-byte length header then payload. -/
def frameBytes (p : List Nat) : List Nat := u32le p.length ++ p

/-- Concatenation of the frames of a payload sequence. -/
def framesBytes : List (List Nat) → List Nat
  | [] => []
  | p :: ps => frameBytes p ++ framesBytes ps

/-- Total framed size of a payload sequence. -/
def sumFrames : List (List Nat) → Nat
  | [] => 0
  | p :: ps => (4 + p.length) + sumFrames ps

/-- Perform a sequence of `try_write`s, failing if any one fails. -/
def writeAll (r : Ring) : List (List Nat) → Option Ring
  | [] => some r
  | p :: ps =>
    match try_write r p with
    | (.ok, r') => writeAll r' ps
    | _ => none

/-- Perform `n` `try_read`s, collecting the payloads. -/
def readAll (r : Ring) : Nat → Option (List (List Nat))
  | 0 => some []
  | n + 1 =>
    match try_read r with
    | (.ok d, r') => (readAll r' n).map (d :: ·)
    | _ => none

/-! ### Ring buffer lemmas -/

theorem u32le_length (n : Nat) : (u32le n).length = 4 := rfl

theorem frameBytes_length (p : List Nat) : (frameBytes p).length = 4 + p.length := by
  simp [frameBytes, u32le]
  omega

theorem framesBytes_length (ps : List (List Nat)) :
    (framesBytes ps).length = sumFrames ps := by
  induction ps with
  | nil => rfl
  | cons p ps ih => simp [framesBytes, sumFrames, frameBytes_length, ih]

theorem decodeU32le_u32le (n : Nat) (h : n < 4294967296) :
    decodeU32le (u32le n) = n := by
  simp only [u32le, decodeU32le]
  omega

theorem writeBytes_length (mem : List Nat) (off : Nat) (bs : List Nat)
    (h : off + bs.length ≤ mem.length) :
    (writeBytes mem off bs).length = mem.length := by
  simp [writeBytes]
  omega

theorem take_append_len {α : Type} (X Y : List α) (n : Nat) (h : X.length = n) :
    (X ++ Y).take n = X := by
  subst h; exact List.take_left X Y

theorem drop_append_len {α : Type} (X Y : List α) (n : Nat) (h : X.length = n) :
    (X ++ Y).drop n = Y := by
  subst h; exact List.drop_left X Y

theorem drop_append_len_add {α : Type} (X Y : List α) (n m : Nat) (h : X.length = n) :
    (X ++ Y).drop (n + m) = Y.drop m := by
  subst h
  rw [List.drop_append_eq_append_drop]
  simp

theorem writeBytes_take (mem : List Nat) (off : Nat) (bs : List Nat)
    (h : off ≤ mem.length) :
    (writeBytes mem off bs).take (off + bs.length) = mem.take off ++ bs := by
  unfold writeBytes
  rw [List.take_append_eq_append_take]
  have h1 : (mem.take off ++ bs).length = off + bs.length := by simp; omega
  have h2 : (mem.take off ++ bs).take (off + bs.length) = mem.take off ++ bs := by
    rw [← h1]; exact List.take_length (mem.take off ++ bs)
  rw [h1, h2, Nat.sub_self, List.take_zero, List.append_nil]

theorem writeBytes_drop (mem : List Nat) (off : Nat) (bs : List Nat) (n : Nat)
    (h : off ≤ mem.length) (hn : off + bs.length ≤ n) :
    (writeBytes mem off bs).drop n = mem.drop n := by
  unfold writeBytes
  rw [List.drop_append_eq_append_drop]
  have h1 : (mem.take off ++ bs).length = off + bs.length := by simp; omega
  have h2 : (mem.take off ++ bs).drop n = [] := by
    apply List.drop_eq_nil_of_le; rw [h1]; omega
  rw [h1, h2, List.nil_append, List.drop_drop]
  congr 1
  omega

theorem writeBytes_append (mem : List Nat) (off la : Nat) (a b : List Nat)
    (ha : a.length = la) (h : off + la + b.length ≤ mem.length) :
    writeBytes (writeBytes mem off a) (off + la) b = writeBytes mem off (a ++ b) := by
  subst ha
  have h1 : off ≤ mem.length := by omega
  show (writeBytes mem off a).take (off + a.length) ++ b ++
      (writeBytes mem off a).drop (off + a.length + b.length) = _
  rw [writeBytes_take mem off a h1]
  rw [writeBytes_drop mem off a (off + a.length + b.length) h1 (by omega)]
  simp [writeBytes, List.append_assoc, Nat.add_assoc]

/-- On a ring whose reader is at 0 and whose remaining contiguous space
holds the whole frame, `try_write` succeeds and splices the frame into
the data area at `write_pos`. -/
theorem try_write_fits (r : Ring) (p : List Nat)
    (hlen : r.mem.length = r.capacity)
    (hrp : r.read_pos = 0)
    (hc32 : r.capacity ≤ 4294967296)
    (hfit : r.write_pos + (4 + p.length) ≤ r.capacity) :
    try_write r p = (.ok, ⟨r.capacity, r.write_pos + (4 + p.length), 0,
      r.mem.take r.write_pos ++ frameBytes p ++
        r.mem.drop (r.write_pos + (4 + p.length))⟩) := by
  obtain ⟨cap, wp, rp, mem⟩ := r
  simp only at hlen hrp hc32 hfit ⊢
  subst hrp
  have hwlt : wp < cap := by omega
  have hmod : wp % cap = wp := Nat.mod_eq_of_lt hwlt
  have hp32 : p.length < 4294967296 := by omega
  simp only [try_write, hmod]
  rw [if_neg (by push_cast; omega)]
  rw [if_neg (by omega)]
  rw [if_neg (by omega)]
  rw [if_neg (by omega)]
  rw [writeBytes_append mem wp 4 (u32le p.length) p (u32le_length p.length)
        (by omega)]
  simp only [writeBytes, frameBytes, List.length_append, u32le_length]

/-- Reading a ring whose data area holds a frame of `p` at `read_pos`
returns exactly `p` and advances `read_pos` past the frame. -/
theorem try_read_frame (r : Ring) (p A B : List Nat)
    (hmem : r.mem = A ++ frameBytes p ++ B)
    (hA : A.length = r.read_pos)
    (hne : r.write_pos ≠ r.read_pos)
    (hfit : r.read_pos + (4 + p.length) ≤ r.capacity)
    (hlen : r.mem.length = r.capacity)
    (hp32 : p.length < 4294967296) :
    try_read r = (.ok p, { r with read_pos := r.read_pos + 4 + p.length }) := by
  obtain ⟨cap, wp, rp, mem⟩ := r
  simp only at hmem hA hne hfit hlen ⊢
  subst hmem
  have hrplt : rp < cap := by omega
  have hmod : rp % cap = rp := Nat.mod_eq_of_lt hrplt
  simp only [try_read, hmod]
  rw [if_neg hne]
  have hdropA : (A ++ frameBytes p ++ B).drop rp = frameBytes p ++ B := by
    rw [List.append_assoc]
    exact drop_append_len A _ rp hA
  have hhead : ((A ++ frameBytes p ++ B).drop rp).take 4 = u32le p.length := by
    rw [hdropA]
    simp only [frameBytes, List.append_assoc]
    exact take_append_len (u32le p.length) _ 4 (u32le_length _)
  rw [hhead]
  rw [if_neg (by simp [u32le])]
  rw [decodeU32le_u32le p.length hp32]
  have hdata : ((A ++ frameBytes p ++ B).drop (rp + 4)).take p.length = p := by
    have : A ++ frameBytes p ++ B = (A ++ u32le p.length) ++ (p ++ B) := by
      simp [frameBytes, List.append_assoc]
    rw [this]
    rw [drop_append_len (A ++ u32le p.length) _ (rp + 4) (by simp [u32le]; omega)]
    exact take_append_len p B p.length rfl
  rw [hdata]

/-- A sequence of writes whose frames collectively fit after `write_pos`
(reader at 0) all succeed and lay the frames down contiguously. -/
theorem writeAll_spec : ∀ (ps : List (List Nat)) (r : Ring),
    r.mem.length = r.capacity → r.read_pos = 0 → r.capacity ≤ 4294967296 →
    r.write_pos + sumFrames ps ≤ r.capacity →
    writeAll r ps = some ⟨r.capacity, r.write_pos + sumFrames ps, 0,
      r.mem.take r.write_pos ++ framesBytes ps ++
        r.mem.drop (r.write_pos + sumFrames ps)⟩ := by
  intro ps
  induction ps with
  | nil =>
    intro r hlen hrp hc32 hfit
    obtain ⟨cap, wp, rp, mem⟩ := r
    simp only at hlen hrp hfit ⊢
    subst hrp
    simp [writeAll, sumFrames, framesBytes, List.take_append_drop]
  | cons p ps ih =>
    intro r hlen hrp hc32 hfit
    obtain ⟨cap, wp, rp, mem⟩ := r
    simp only at hlen hrp hfit ⊢
    subst hrp
    have hfit1 : wp + (4 + p.length) ≤ cap := by
      simp only [sumFrames] at hfit; omega
    have hw := try_write_fits ⟨cap, wp, 0, mem⟩ p hlen rfl hc32 hfit1
    simp only at hw
    simp only [writeAll, hw]
    set mem1 : List Nat :=
      mem.take wp ++ frameBytes p ++ mem.drop (wp + (4 + p.length)) with hmem1
    have hlen1 : mem1.length = cap := by
      simp [hmem1, frameBytes_length]
      omega
    have hfit2 : (wp + (4 + p.length)) + sumFrames ps ≤ cap := by
      simp only [sumFrames] at hfit; omega
    have := ih ⟨cap, wp + (4 + p.length), 0, mem1⟩ hlen1 rfl hc32 hfit2
    simp only at this
    rw [this]
    have htake : mem1.take (wp + (4 + p.length)) = mem.take wp ++ frameBytes p := by
      rw [hmem1]
      rw [List.take_append_eq_append_take]
      have hl : (mem.take wp ++ frameBytes p).length = wp + (4 + p.length) := by
        simp [frameBytes_length]; omega
      have h2 : (mem.take wp ++ frameBytes p).take (wp + (4 + p.length)) =
          mem.take wp ++ frameBytes p := by
        rw [← hl]; exact List.take_length _
      rw [hl, h2, Nat.sub_self, List.take_zero, List.append_nil]
    have hdrop : mem1.drop ((wp + (4 + p.length)) + sumFrames ps) =
        mem.drop ((wp + (4 + p.length)) + sumFrames ps) := by
      rw [hmem1]
      rw [List.drop_append_eq_append_drop]
      have hl : (mem.take wp ++ frameBytes p).length = wp + (4 + p.length) := by
        simp [frameBytes_length]; omega
      have h2 : (mem.take wp ++ frameBytes p).drop
          ((wp + (4 + p.length)) + sumFrames ps) = [] := by
        apply List.drop_eq_nil_of_le; rw [hl]; omega
      rw [hl, h2, List.nil_append, List.drop_drop]
      congr 1
      omega
    rw [htake, hdrop]
    simp only [sumFrames, framesBytes, Option.some.injEq, Ring.mk.injEq,
      List.append_assoc, true_and]
    refine ⟨by omega, ?_⟩
    have : wp + (4 + p.length) + sumFrames ps = wp + (4 + p.length + sumFrames ps) := by
      omega
    rw [this]

/-- Reading `n` frames laid out contiguously at `read_pos` returns
exactly those payloads in order. -/
theorem readAll_spec : ∀ (ps : List (List Nat)) (r : Ring) (A B : List Nat),
    r.mem = A ++ framesBytes ps ++ B → A.length = r.read_pos →
    r.write_pos = r.read_pos + sumFrames ps →
    r.mem.length = r.capacity → r.write_pos ≤ r.capacity →
    r.capacity ≤ 4294967296 →
    readAll r ps.length = some ps := by
  intro ps
  induction ps with
  | nil => intro r A B _ _ _ _ _ _; rfl
  | cons p ps ih =>
    intro r A B hmem hA hwp hlen hwcap hc32
    obtain ⟨cap, wp, rp, mem⟩ := r
    simp only at hmem hA hwp hlen hwcap hc32 ⊢
    have hS : sumFrames (p :: ps) = (4 + p.length) + sumFrames ps := rfl
    have hne : wp ≠ rp := by rw [hwp, hS]; omega
    have hfit : rp + (4 + p.length) ≤ cap := by rw [hwp, hS] at hwcap; omega
    have hp32 : p.length < 4294967296 := by omega
    have hmem' : mem = A ++ frameBytes p ++ (framesBytes ps ++ B) := by
      rw [hmem]
      simp [framesBytes, List.append_assoc]
    have hr := try_read_frame ⟨cap, wp, rp, mem⟩ p A (framesBytes ps ++ B)
      hmem' hA hne hfit hlen hp32
    simp only at hr
    have hih := ih ⟨cap, wp, rp + 4 + p.length, mem⟩ (A ++ frameBytes p) B
      (by simp only; rw [hmem']; simp [List.append_assoc])
      (by simp only [List.length_append, frameBytes_length]; omega)
      (by simp only; rw [hwp, hS]; omega)
      (by simp only; exact hlen) (by simp only; exact hwcap)
      (by simp only; exact hc32)
    show readAll ⟨cap, wp, rp, mem⟩ (ps.length + 1) = some (p :: ps)
    simp only [readAll, hr, hih, Option.map_some']

/-! ### Claim theorems about the ring buffer -/

/-- Claim C1: for every sequence of N payloads that collectively fit in
the ring (sum of framed sizes at most the capacity; ring fresh, both
positions 0 as initialized by the daemon; capacity within the 32-bit
length framing), N calls to `try_write` all succeed and N subsequent
calls to `try_read` return exactly those payloads byte-for-byte, in
FIFO order. -/
theorem C1_fifo_roundtrip (ps : List (List Nat)) (cap : Nat) (mem0 : List Nat)
    (hm : mem0.length = cap) (hc32 : cap ≤ 4294967296)
    (hfit : sumFrames ps ≤ cap) :
    ∃ r', writeAll ⟨cap, 0, 0, mem0⟩ ps = some r' ∧
      readAll r' ps.length = some ps := by
  have hw := writeAll_spec ps ⟨cap, 0, 0, mem0⟩ hm rfl hc32 (by simpa)
  simp only [Nat.zero_add, List.take_zero, List.nil_append] at hw
  refine ⟨_, hw, ?_⟩
  apply readAll_spec ps _ [] (mem0.drop (sumFrames ps))
  · simp
  · rfl
  · simp
  · simp only [List.length_append, framesBytes_length, List.length_drop, hm]
    omega
  · simpa using hfit
  · exact hc32

/-- Witness for C1 at a concrete instance: two payloads into a fresh
16-byte ring. -/
theorem C1_fifo_roundtrip_witness :
    ∃ r', writeAll ⟨16, 0, 0, List.replicate 16 0⟩ [[1, 2], [3]] = some r' ∧
      readAll r' [[1, 2], [3]].length = some [[1, 2], [3]] :=
  C1_fifo_roundtrip [[1, 2], [3]] 16 (List.replicate 16 0)
    (by decide) (by decide) (by decide)

/-- Claim C2 counterexample: a write whose frame extends past physical
offset 64 + capacity is NOT rejected by the writer.  With capacity 16
and both positions at 8, a 12-byte payload frames to 16 bytes ending at
physical offset 64 + 24 > 64 + 16, yet `try_write` passes its only
check (total available space) and mutates the data area — it writes the
4-byte header — before the payload write fails with `ValueError` (not
`BufferFull`). -/
theorem C2_counterexample :
    16 < (8 : Nat) % 16 + 4 + (List.replicate 12 1).length ∧
    (try_write ⟨16, 8, 8, List.replicate 16 0⟩ (List.replicate 12 1)).1 =
      .valueError ∧
    (try_write ⟨16, 8, 8, List.replicate 16 0⟩ (List.replicate 12 1)).1 ≠
      .bufferFull ∧
    (try_write ⟨16, 8, 8, List.replicate 16 0⟩ (List.replicate 12 1)).2.mem ≠
      List.replicate 16 0 := by decide

/-- Claim C2 (amended): `try_write` checks only total available space,
not contiguity, so it does not proactively reject a straddling frame;
no straddling frame is ever COMPLETED, however: a successful write
implies the whole frame fit before the end of the data region, and a
straddling frame that passes the space check instead raises `ValueError`
from the out-of-range `mmap` write, leaving both positions unchanged. -/
theorem C2_no_straddle_amended :
    (∀ (r : Ring) (d : List Nat), (try_write r d).1 = .ok →
        r.write_pos % r.capacity + 4 + d.length ≤ r.capacity) ∧
    (∀ (r : Ring) (d : List Nat),
        ¬((r.capacity : Int) - ((r.write_pos : Int) - (r.read_pos : Int)) <
            ((4 + d.length : Nat) : Int)) →
        d.length < 4294967296 →
        r.capacity < r.write_pos % r.capacity + 4 + d.length →
        (try_write r d).1 = .valueError ∧
        (try_write r d).2.write_pos = r.write_pos ∧
        (try_write r d).2.read_pos = r.read_pos) := by
  constructor
  · intro r d h
    simp only [try_write] at h
    split_ifs at h with h1 h2 h3 h4
    all_goals simp at h
    omega
  · intro r d h1 h2 h3
    by_cases hh : r.capacity < r.write_pos % r.capacity + 4
    · simp only [try_write]
      rw [if_neg h1, if_neg (by omega), if_pos hh]
      exact ⟨rfl, rfl, rfl⟩
    · simp only [try_write]
      rw [if_neg h1, if_neg (by omega), if_neg hh, if_pos (by omega)]
      exact ⟨rfl, rfl, rfl⟩

/-- Witness for C2 (amended) at concrete instances: a completed write
in a fresh 16-byte ring fit contiguously, and the straddling 12-byte
write at offset 8 failed with `ValueError` without moving positions. -/
theorem C2_no_straddle_amended_witness :
    ((0 : Nat) % 16 + 4 + ([1] : List Nat).length ≤ 16) ∧
    ((try_write ⟨16, 8, 8, List.replicate 16 0⟩ (List.replicate 12 3)).1 =
        .valueError ∧
      (try_write ⟨16, 8, 8, List.replicate 16 0⟩ (List.replicate 12 3)).2.write_pos = 8 ∧
      (try_write ⟨16, 8, 8, List.replicate 16 0⟩ (List.replicate 12 3)).2.read_pos = 8) :=
  ⟨C2_no_straddle_amended.1 ⟨16, 0, 0, List.replicate 16 0⟩ [1] (by decide),
   C2_no_straddle_amended.2 ⟨16, 8, 8, List.replicate 16 0⟩ (List.replicate 12 3)
     (by decide) (by decide) (by decide)⟩

/-- Claim C6: failed ring operations mutate nothing.  When available
space is less than the frame size, `try_write` fails with `BufferFull`
returning the state unchanged (the check precedes every `mmap` write);
when `write_pos = read_pos`, `try_read` fails with `BufferEmpty`
returning the state unchanged. -/
theorem C6_failed_ops_no_mutation :
    (∀ (r : Ring) (d : List Nat),
        (r.capacity : Int) - ((r.write_pos : Int) - (r.read_pos : Int)) <
          ((4 + d.length : Nat) : Int) →
        try_write r d = (.bufferFull, r)) ∧
    (∀ r : Ring, r.write_pos = r.read_pos →
        try_read r = (.bufferEmpty, r)) := by
  constructor
  · intro r d h
    simp only [try_write]
    rw [if_pos h]
  · intro r h
    simp only [try_read]
    rw [if_pos h]

/-- Witness for C6 at concrete instances. -/
theorem C6_failed_ops_no_mutation_witness :
    try_write ⟨2, 0, 0, [0, 0]⟩ [] = (.bufferFull, ⟨2, 0, 0, [0, 0]⟩) ∧
    try_read ⟨4, 5, 5, [0, 0, 0, 0]⟩ = (.bufferEmpty, ⟨4, 5, 5, [0, 0, 0, 0]⟩) :=
  ⟨C6_failed_ops_no_mutation.1 ⟨2, 0, 0, [0, 0]⟩ [] (by decide),
   C6_failed_ops_no_mutation.2 ⟨4, 5, 5, [0, 0, 0, 0]⟩ (by decide)⟩

/-- Claim C7 counterexample: into an empty ring (write_pos = read_pos)
`try_write` of a payload of exactly capacity − 4 bytes does NOT always
succeed.  With capacity 16 and both positions at 8, the 12-byte payload
frames to 16 bytes which would straddle the end of the data region, and
the write fails with `ValueError`. -/
theorem C7_counterexample :
    (try_write ⟨16, 8, 8, List.replicate 16 0⟩ (List.replicate 12 2)).1 =
        .valueError ∧
    (try_write ⟨16, 8, 8, List.replicate 16 0⟩ (List.replicate 12 2)).1 ≠
        .ok := by decide

/-- Claim C7 (amended): into an empty ring whose write offset is 0
(`write_pos % capacity = 0`, e.g. a fresh ring), `try_write` of a
payload of exactly capacity − 4 bytes succeeds; into ANY empty ring,
`try_write` of a payload of capacity − 3 bytes fails with `BufferFull`
and mutates nothing. -/
theorem C7_boundary_amended :
    (∀ (cap wp : Nat) (mem d : List Nat), mem.length = cap → 4 ≤ cap →
        cap ≤ 4294967296 → wp % cap = 0 → d.length = cap - 4 →
        (try_write ⟨cap, wp, wp, mem⟩ d).1 = .ok) ∧
    (∀ (cap wp : Nat) (mem d : List Nat), 4 ≤ cap → d.length = cap - 3 →
        try_write ⟨cap, wp, wp, mem⟩ d = (.bufferFull, ⟨cap, wp, wp, mem⟩)) := by
  constructor
  · intro cap wp mem d hm h4 h32 hmod hd
    simp only [try_write, hmod]
    rw [if_neg (by push_cast; omega), if_neg (by omega), if_neg (by omega),
      if_neg (by omega)]
  · intro cap wp mem d h4 hd
    simp only [try_write]
    rw [if_pos (by push_cast; omega)]

/-- Witness for C7 (amended) at concrete instances: capacity 8,
payload 4 succeeds at offset 0; payload 5 fails with `BufferFull`. -/
theorem C7_boundary_amended_witness :
    (try_write ⟨8, 16, 16, List.replicate 8 0⟩ (List.replicate 4 7)).1 = .ok ∧
    try_write ⟨8, 5, 5, List.replicate 8 0⟩ (List.replicate 5 7) =
      (.bufferFull, ⟨8, 5, 5, List.replicate 8 0⟩) :=
  ⟨C7_boundary_amended.1 8 16 (List.replicate 8 0) (List.replicate 4 7)
     (by decide) (by decide) (by decide) (by decide) (by decide),
   C7_boundary_amended.2 8 5 (List.replicate 8 0) (List.replicate 5 7)
     (by decide) (by decide)⟩

/-! ## RPC pump (src/assassinate/ipc/client.py)

Operational model of `MsfClient`'s observable state: whether both ring
buffers are attached (`connected`), the call-id counter, the keys of the
`_pending_calls` table (in insertion order), the `_shutdown` flag and
whether the background reader task is running.  Ring contents and
payloads are abstracted: the reader's per-iteration input (empty buffer,
undecodable frame, or a decoded reply) is supplied explicitly. -/

structure Client where
  connected : Bool
  next_call_id : Nat
  pending : List Nat
  shutdown_flag : Bool
  reader_running : Bool
deriving DecidableEq, Repr

/-- `MsfClient.__init__` (client.py lines 31-49): no buffers,
`next_call_id = 1`, empty pending table, shutdown clear, no reader. -/
def initClient : Client :=
  { connected := false, next_call_id := 1, pending := [],
    shutdown_flag := false, reader_running := false }

/-- `MsfClient.connect()` (client.py lines 51-78): attaches both ring
buffers, clears `_shutdown` and spawns the reader task.  It touches
neither `next_call_id` nor `_pending_calls`. -/
def connect (c : Client) : Client :=
  { c with connected := true, shutdown_flag := false, reader_running := true }

/-- `MsfClient.disconnect()` (client.py lines 80-105): sets `_shutdown`,
waits for (or cancels) the reader task, and closes and clears both
buffers.  It touches neither `next_call_id` nor `_pending_calls`. -/
def disconnect (c : Client) : Client :=
  { c with shutdown_flag := true, reader_running := false, connected := false }

/-- Errors surfaced by `_call` paths modelled here.  `notConnected` is
the `RuntimeError("Not connected - call connect() first")` raised before
`connect` or after `disconnect` (the spec's `NotConnected` code);
`timeout` is `ipc.errors.TimeoutError`. -/
inductive ClientErr where
  | notConnected
  | timeout
deriving DecidableEq, Repr

/-- Result of starting `MsfClient._call` (client.py lines 169-207 up to
the write): either the not-connected guard fires before a call id is
allocated, or a fresh id is allocated, the counter incremented and a
pending future installed. -/
inductive CallStart where
  | notConnected
  | started (id : Nat)
deriving DecidableEq, Repr

/-- The prefix of `MsfClient._call`: the connected guard (line 184),
then id allocation `call_id = next_call_id; next_call_id += 1` (lines
187-189) and insertion into `_pending_calls` (line 201). -/
def callStart (c : Client) : CallStart × Client :=
  if c.connected then
    (.started c.next_call_id,
     { c with next_call_id := c.next_call_id + 1,
              pending := c.pending ++ [c.next_call_id] })
  else (.notConnected, c)

/-- The `except asyncio.TimeoutError` handler of `_call` (client.py
lines 216-220): `_pending_calls.pop(call_id, None)` then raise
`Timeout`. -/
def callTimeout (c : Client) (id : Nat) : Client × ClientErr :=
  ({ c with pending := c.pending.erase id }, .timeout)

/-- What `_response_reader` observes in one loop iteration:
no response buffer attached, `BufferEmptyError`, a frame on which
`deserialize_response` (or anything else in the body) raises, or a
decoded reply for `id` (`isErr`: the reply carries an error envelope;
`futCancelled`: the pending future was already cancelled). -/
inductive ReaderInput where
  | noBuffer
  | bufEmpty
  | badFrame
  | reply (id : Nat) (isErr : Bool) (futCancelled : Bool)
deriving DecidableEq, Repr

/-- What one reader iteration delivered to a suspended caller. -/
inductive Delivery where
  | completedOk (id : Nat)
  | completedErr (id : Nat)
  | popped (id : Nat)
  | dropped
  | nothing
deriving DecidableEq, Repr

/-- One iteration of the `_response_reader` loop body (client.py lines
123-165).  Every branch continues the loop: missing buffer and
`BufferEmptyError` sleep briefly; any other exception is caught, logged
and the loop continues; a reply is popped from `_pending_calls` and, if
a not-yet-cancelled future was found, completes it with the result or a
`RemoteError`; a reply with no pending entry is dropped without
raising. -/
def readerBody (c : Client) (inp : ReaderInput) : Client × Delivery :=
  match inp with
  | .noBuffer => (c, .nothing)
  | .bufEmpty => (c, .nothing)
  | .badFrame => (c, .nothing)
  | .reply id isErr futCancelled =>
    if id ∈ c.pending then
      ({ c with pending := c.pending.erase id },
       if futCancelled then .popped id
       else if isErr then .completedErr id else .completedOk id)
    else (c, .dropped)

/-- The `while not self._shutdown` reader loop over a finite schedule of
iteration inputs; returns the final state and the number of iterations
executed (the loop exits as soon as the shutdown flag is observed). -/
def readerRun (c : Client) : List ReaderInput → Client × Nat
  | [] => (c, 0)
  | inp :: rest =>
    if c.shutdown_flag then (c, 0)
    else
      let out := readerRun (readerBody c inp).1 rest
      (out.1, out.2 + 1)

/-- `SyncMsfClient._ensure_connected` (sync.py lines 134-138): raise the
not-connected `RuntimeError` when `_async_client` is `None`, else return
the async client. -/
def sync_ensure_connected : Option Client → Except ClientErr Client
  | none => .error .notConnected
  | some c => .ok c

/-- `SyncMsfClient.__init__` (sync.py line 41): `_async_client = None`. -/
def syncInit : Option Client := none

/-- `SyncMsfClient.disconnect` (sync.py lines 105-109): after running
the async disconnect it sets `_async_client = None`. -/
def syncDisconnect (_s : Option Client) : Option Client := none

/-- Client lifecycle events, for whole-lifetime statements.  A `call`
event is `_call`'s prefix; `timeoutFire` is a per-call timeout; `reply`
is one reader iteration delivering a decoded reply. -/
inductive Event where
  | connect
  | disconnect
  | call
  | timeoutFire (id : Nat)
  | reply (id : Nat) (isErr : Bool) (futCancelled : Bool)
deriving DecidableEq, Repr

/-- Apply one event; returns the new state and the call id assigned by
the event, when it was a `call` that passed the connected guard. -/
def applyEvent (c : Client) : Event → Client × Option Nat
  | .connect => (connect c, none)
  | .disconnect => (disconnect c, none)
  | .call =>
    match callStart c with
    | (.started id, c') => (c', some id)
    | (.notConnected, c') => (c', none)
  | .timeoutFire id => ((callTimeout c id).1, none)
  | .reply id isErr fc => ((readerBody c (.reply id isErr fc)).1, none)

/-- Run a sequence of lifecycle events, collecting the assigned call ids
in order. -/
def runEvents (c : Client) : List Event → Client × List Nat
  | [] => (c, [])
  | e :: es =>
    let step := applyEvent c e
    let rest := runEvents step.1 es
    (rest.1, step.2.toList ++ rest.2)

/-! ### Claim theorems about the RPC pump -/

/-- Claim C3 counterexample: `disconnect()` does not empty the
pending-call table.  Starting from a connected client with one
outstanding call (pending id 1), the table still holds that entry after
`disconnect` returns, and no `Cancelled` completion was delivered. -/
theorem C3_counterexample :
    (disconnect { connected := true, next_call_id := 2, pending := [1],
                  shutdown_flag := false, reader_running := true }).pending =
      [1] ∧
    (disconnect { connected := true, next_call_id := 2, pending := [1],
                  shutdown_flag := false, reader_running := true }).pending ≠
      [] := by decide

/-- Claim C3 (amended): `disconnect()` sets the shutdown flag, stops the
reader and closes both buffers, but leaves the pending-call table
exactly as it was: outstanding calls are not failed with `Cancelled` by
`disconnect`; a still-suspended caller observes an outcome only through
an earlier reply or its own timeout. -/
theorem C3_disconnect_amended (c : Client) :
    (disconnect c).pending = c.pending ∧
    (disconnect c).shutdown_flag = true ∧
    (disconnect c).connected = false ∧
    (disconnect c).reader_running = false :=
  ⟨rfl, rfl, rfl, rfl⟩

/-- Claim C4: a call that times out fails with `Timeout` and its
pending entry is gone; a later reply for that call id is dropped by the
reader without raising and without touching the state, and the next
call proceeds normally with a fresh id. -/
theorem C4_timeout_cleanup (c : Client) (hc : c.connected = true)
    (hfresh : c.next_call_id ∉ c.pending) :
    (callStart c).1 = .started c.next_call_id ∧
    (callTimeout (callStart c).2 c.next_call_id).2 = .timeout ∧
    c.next_call_id ∉ (callTimeout (callStart c).2 c.next_call_id).1.pending ∧
    (callTimeout (callStart c).2 c.next_call_id).1.pending = c.pending ∧
    (∀ isErr fc : Bool,
        readerBody (callTimeout (callStart c).2 c.next_call_id).1
          (.reply c.next_call_id isErr fc) =
        ((callTimeout (callStart c).2 c.next_call_id).1, .dropped)) ∧
    (callStart (callTimeout (callStart c).2 c.next_call_id).1).1 =
      .started (c.next_call_id + 1) := by
  have hpend : ((callStart c).2).pending = c.pending ++ [c.next_call_id] := by
    simp [callStart, hc]
  have herase : (c.pending ++ [c.next_call_id]).erase c.next_call_id =
      c.pending := by
    rw [List.erase_append_right _ hfresh]
    simp
  have hct : (callTimeout (callStart c).2 c.next_call_id).1.pending =
      c.pending := by
    simp [callTimeout, hpend, herase]
  refine ⟨by simp [callStart, hc], rfl, ?_, hct, ?_, ?_⟩
  · rw [hct]; exact hfresh
  · intro isErr fc
    have : c.next_call_id ∉
        (callTimeout (callStart c).2 c.next_call_id).1.pending := by
      rw [hct]; exact hfresh
    simp [readerBody, this]
  · have hconn : (callTimeout (callStart c).2 c.next_call_id).1.connected =
        true := by simp [callTimeout, callStart, hc]
    have hncid : (callTimeout (callStart c).2 c.next_call_id).1.next_call_id =
        c.next_call_id + 1 := by simp [callTimeout, callStart, hc]
    set X := (callTimeout (callStart c).2 c.next_call_id).1 with hX
    simp only [callStart, hconn, hncid, if_true]

/-- Witness for C4 at a concrete instance: a freshly connected client. -/
theorem C4_timeout_cleanup_witness :
    (callStart (connect initClient)).1 = .started 1 ∧
    (callTimeout (callStart (connect initClient)).2 1).2 = .timeout ∧
    (1 : Nat) ∉ (callTimeout (callStart (connect initClient)).2 1).1.pending ∧
    (callTimeout (callStart (connect initClient)).2 1).1.pending =
      (connect initClient).pending ∧
    (∀ isErr fc : Bool,
        readerBody (callTimeout (callStart (connect initClient)).2 1).1
          (.reply 1 isErr fc) =
        ((callTimeout (callStart (connect initClient)).2 1).1, .dropped)) ∧
    (callStart (callTimeout (callStart (connect initClient)).2 1).1).1 =
      .started 2 :=
  C4_timeout_cleanup (connect initClient) (by decide) (by decide)

/-- Claim C8: every RPC operation other than `connect()` is dispatched
through `MsfClient._call` (async) or `SyncMsfClient._ensure_connected`
(sync), and both guards fail with the not-connected error on a client
in the New state (never connected: buffers / `_async_client` are None)
or the Closed state (after disconnect): `callStart` refuses before
allocating anything, and `_ensure_connected` refuses after `disconnect`
reset `_async_client` to None. -/
theorem C8_not_connected :
    initClient.connected = false ∧
    (∀ c : Client, (disconnect c).connected = false) ∧
    (∀ c : Client, c.connected = false → callStart c = (.notConnected, c)) ∧
    sync_ensure_connected syncInit = .error .notConnected ∧
    (∀ s : Option Client,
        sync_ensure_connected (syncDisconnect s) = .error .notConnected) := by
  refine ⟨rfl, fun c => rfl, ?_, rfl, fun s => rfl⟩
  intro c h
  simp [callStart, h]

/-- Witness for C8 at concrete instances: the guard on a never-connected
client and on a disconnected client. -/
theorem C8_not_connected_witness :
    callStart initClient = (.notConnected, initClient) ∧
    callStart (disconnect (connect initClient)) =
      (.notConnected, disconnect (connect initClient)) :=
  ⟨C8_not_connected.2.2.1 initClient rfl,
   C8_not_connected.2.2.1 (disconnect (connect initClient))
     (C8_not_connected.2.1 (connect initClient))⟩

/-- Claim C9: the background reader never terminates on a bad frame: a
decoded reply whose call id has no pending entry is dropped without
raising and without state change, a frame that fails to decode is
logged and skipped, no iteration ever sets the shutdown flag, and the
loop runs one iteration per input — it ends only via the shutdown
flag. -/
theorem C9_reader_never_dies :
    (∀ (c : Client) (id : Nat) (isErr fc : Bool), id ∉ c.pending →
        readerBody c (.reply id isErr fc) = (c, .dropped)) ∧
    (∀ c : Client, readerBody c .badFrame = (c, .nothing)) ∧
    (∀ (c : Client) (inp : ReaderInput),
        (readerBody c inp).1.shutdown_flag = c.shutdown_flag) ∧
    (∀ (inps : List ReaderInput) (c : Client), c.shutdown_flag = false →
        (readerRun c inps).2 = inps.length) := by
  have hflag : ∀ (c : Client) (inp : ReaderInput),
      (readerBody c inp).1.shutdown_flag = c.shutdown_flag := by
    intro c inp
    cases inp with
    | reply id isErr fc =>
      simp only [readerBody]
      split <;> rfl
    | noBuffer => rfl
    | bufEmpty => rfl
    | badFrame => rfl
  refine ⟨?_, fun c => rfl, hflag, ?_⟩
  · intro c id isErr fc h
    simp [readerBody, h]
  · intro inps
    induction inps with
    | nil => intro c _; rfl
    | cons inp rest ih =>
      intro c h
      simp only [readerRun, h, Bool.false_eq_true, if_false]
      rw [ih _ (by rw [hflag, h])]
      simp

/-- Witness for C9 at concrete instances: an unknown-id reply on a fresh
client is dropped, and a two-input schedule runs both iterations. -/
theorem C9_reader_never_dies_witness :
    readerBody initClient (.reply 5 false false) = (initClient, .dropped) ∧
    (readerRun initClient [.bufEmpty, .badFrame]).2 = 2 :=
  ⟨C9_reader_never_dies.1 initClient 5 false false (by decide),
   C9_reader_never_dies.2.2.2 [.bufEmpty, .badFrame] initClient rfl⟩

/-- `applyEvent` either assigns no id and keeps `next_call_id`
unchanged, or assigns exactly the current `next_call_id` and increments
the counter. -/
theorem applyEvent_spec (c : Client) (e : Event) :
    ((applyEvent c e).2 = none ∧
      (applyEvent c e).1.next_call_id = c.next_call_id) ∨
    ((applyEvent c e).2 = some c.next_call_id ∧
      (applyEvent c e).1.next_call_id = c.next_call_id + 1) := by
  cases e with
  | connect => exact Or.inl ⟨rfl, rfl⟩
  | disconnect => exact Or.inl ⟨rfl, rfl⟩
  | call =>
    by_cases h : c.connected
    · right
      simp [applyEvent, callStart, h]
    · left
      simp [applyEvent, callStart, h]
  | timeoutFire id => exact Or.inl ⟨rfl, rfl⟩
  | reply id isErr fc =>
    left
    simp only [applyEvent, readerBody]
    split <;> simp

/-- Along any event trace, the assigned call ids are bounded below by
the starting counter and strictly increasing. -/
theorem runEvents_ids_mono : ∀ (es : List Event) (c : Client),
    (∀ i ∈ (runEvents c es).2, c.next_call_id ≤ i) ∧
    List.Chain' (· < ·) (runEvents c es).2 := by
  intro es
  induction es with
  | nil =>
    intro c
    exact ⟨fun i h => absurd h (List.not_mem_nil i), List.chain'_nil⟩
  | cons e es ih =>
    intro c
    rcases applyEvent_spec c e with ⟨hnone, hncid⟩ | ⟨hsome, hncid⟩
    · have h := ih (applyEvent c e).1
      constructor
      · intro i hi
        simp only [runEvents, hnone, Option.toList_none, List.nil_append] at hi
        have := h.1 i hi
        omega
      · simpa only [runEvents, hnone, Option.toList_none, List.nil_append]
          using h.2
    · have h := ih (applyEvent c e).1
      constructor
      · intro i hi
        simp only [runEvents, hsome, Option.toList_some, List.cons_append,
          List.nil_append, List.mem_cons] at hi
        rcases hi with rfl | hi
        · omega
        · have := h.1 i hi
          omega
      · simp only [runEvents, hsome, Option.toList_some, List.cons_append,
          List.nil_append]
        rw [List.chain'_cons']
        refine ⟨?_, h.2⟩
        intro b hb
        have hmem : b ∈ (runEvents (applyEvent c e).1 es).2 :=
          List.mem_of_mem_head? hb
        have := h.1 b hmem
        omega

/-- Claim C10: `next_call_id` starts at 1, is preserved by `connect()`
and `disconnect()`, and along any lifecycle event trace — including
disconnect followed by reconnect — the assigned call ids are strictly
increasing, so no call id is ever reused. -/
theorem C10_call_id_monotone :
    initClient.next_call_id = 1 ∧
    (∀ c : Client, (connect c).next_call_id = c.next_call_id) ∧
    (∀ c : Client, (disconnect c).next_call_id = c.next_call_id) ∧
    (∀ es : List Event,
        List.Chain' (· < ·) (runEvents initClient es).2 ∧
        (runEvents initClient es).2.Nodup) := by
  refine ⟨rfl, fun c => rfl, fun c => rfl, fun es => ?_⟩
  have h := runEvents_ids_mono es initClient
  refine ⟨h.2, ?_⟩
  have hp : List.Pairwise (· < ·) (runEvents initClient es).2 :=
    List.chain'_iff_pairwise.1 h.2
  exact hp.imp Nat.ne_of_lt

/-! ## MessagePack codec (src/assassinate/ipc/protocol.py)

`serialize_call` / `deserialize_response` use `msgpack.packb(...,
use_bin_type=True)` / `msgpack.unpackb(..., raw=False)`.  The value
universe is modelled by `MsgValue`: None, bool, int, str (as its UTF-8
byte sequence), bytes, list and dict (as an ordered pair list — Python
dicts preserve insertion order and msgpack serializes them in that
order).  Floats, ext types and timestamps never occur in the envelopes
and are outside the modelled universe (the decoder treats their tags as
a failed decode). -/

inductive MsgValue where
  | nil
  | bool (b : Bool)
  | int (n : Int)
  | str (s : List Nat)
  | bin (d : List Nat)
  | arr (items : List MsgValue)
  | map (pairs : List (MsgValue × MsgValue))

mutual
/-- The values `msgpack.packb` accepts without error: 64-bit-range
ints, byte entries below 256, and lengths below 2^32. -/
def valid : MsgValue → Bool
  | .nil => true
  | .bool _ => true
  | .int n =>
    decide (-(9223372036854775808 : Int) ≤ n) &&
    decide (n < 18446744073709551616)
  | .str s => decide (s.length < 4294967296) && s.all (fun b => b < 256)
  | .bin d => decide (d.length < 4294967296) && d.all (fun b => b < 256)
  | .arr l => decide (l.length < 4294967296) && validList l
  | .map ps => decide (ps.length < 4294967296) && validPairs ps
def validList : List MsgValue → Bool
  | [] => true
  | v :: vs => valid v && validList vs
def validPairs : List (MsgValue × MsgValue) → Bool
  | [] => true
  | (k, v) :: ps => valid k && valid v && validPairs ps
end

mutual
/-- Number of nodes of a value: a fuel bound for the decoder. -/
def nodes : MsgValue → Nat
  | .arr l => 1 + nodesList l
  | .map ps => 1 + nodesPairs ps
  | _ => 1
def nodesList : List MsgValue → Nat
  | [] => 0
  | v :: vs => nodes v + nodesList vs
def nodesPairs : List (MsgValue × MsgValue) → Nat
  | [] => 0
  | (k, v) :: ps => nodes k + nodes v + nodesPairs ps
end

/-- Big-endian 16-bit bytes, as `struct.pack(">H", n)`. -/
def be2 (n : Nat) : List Nat := [n / 256 % 256, n % 256]

/-- Big-endian 32-bit bytes, as `struct.pack(">I", n)`. -/
def be4 (n : Nat) : List Nat :=
  [n / 16777216 % 256, n / 65536 % 256, n / 256 % 256, n % 256]

/-- Big-endian 64-bit bytes, as `struct.pack(">Q", n)`. -/
def be8 (n : Nat) : List Nat :=
  [n / 72057594037927936 % 256, n / 281474976710656 % 256,
   n / 1099511627776 % 256, n / 4294967296 % 256,
   n / 16777216 % 256, n / 65536 % 256, n / 256 % 256, n % 256]

/-- Big-endian 16-bit value from two bytes. -/
def be2v (b1 b0 : Nat) : Nat := b1 * 256 + b0

/-- Big-endian 32-bit value from four bytes. -/
def be4v (b3 b2 b1 b0 : Nat) : Nat :=
  ((b3 * 256 + b2) * 256 + b1) * 256 + b0

/-- Big-endian 64-bit value from eight bytes. -/
def be8v (b7 b6 b5 b4 b3 b2 b1 b0 : Nat) : Nat :=
  ((((((b7 * 256 + b6) * 256 + b5) * 256 + b4) * 256 + b3) * 256 + b2) *
      256 + b1) * 256 + b0

/-- msgpack's minimal-width int encoding (fallback.py `Packer._pack`):
positive fixint, uint8/16/32/64; negative fixint, int8/16/32/64, with
negative values carried in two's complement. -/
def packInt (n : Int) : List Nat :=
  if 0 ≤ n then
    let m := n.toNat
    if m < 128 then [m]
    else if m < 256 then [0xcc, m]
    else if m < 65536 then 0xcd :: be2 m
    else if m < 4294967296 then 0xce :: be4 m
    else 0xcf :: be8 m
  else
    if -32 ≤ n then [(n + 256).toNat]
    else if -128 ≤ n then [0xd0, (n + 256).toNat]
    else if -32768 ≤ n then 0xd1 :: be2 (n + 65536).toNat
    else if -2147483648 ≤ n then 0xd2 :: be4 (n + 4294967296).toNat
    else 0xd3 :: be8 (n + 18446744073709551616).toNat

mutual
/-- `msgpack.packb(v, use_bin_type=True)`: minimal-width headers
(fixstr/str8/str16/str32, bin8/16/32, fixarray/array16/array32,
fixmap/map16/map32), then the payload / elements in order. -/
def pack : MsgValue → List Nat
  | .nil => [0xc0]
  | .bool false => [0xc2]
  | .bool true => [0xc3]
  | .int n => packInt n
  | .str s =>
    (if s.length < 32 then [0xa0 + s.length]
     else if s.length < 256 then [0xd9, s.length]
     else if s.length < 65536 then 0xda :: be2 s.length
     else 0xdb :: be4 s.length) ++ s
  | .bin d =>
    (if d.length < 256 then [0xc4, d.length]
     else if d.length < 65536 then 0xc5 :: be2 d.length
     else 0xc6 :: be4 d.length) ++ d
  | .arr l =>
    (if l.length < 16 then [0x90 + l.length]
     else if l.length < 65536 then 0xdc :: be2 l.length
     else 0xdd :: be4 l.length) ++ packList l
  | .map ps =>
    (if ps.length < 16 then [0x80 + ps.length]
     else if ps.length < 65536 then 0xde :: be2 ps.length
     else 0xdf :: be4 ps.length) ++ packPairs ps
def packList : List MsgValue → List Nat
  | [] => []
  | v :: vs => pack v ++ packList vs
def packPairs : List (MsgValue × MsgValue) → List Nat
  | [] => []
  | (k, v) :: ps => pack k ++ pack v ++ packPairs ps
end

/-- Read exactly `n` bytes or fail (the unpacker's payload read). -/
def takeExact (n : Nat) (bs : List Nat) : Option (List Nat × List Nat) :=
  if bs.length < n then none else some (bs.take n, bs.drop n)

/-- Decode exactly `n` consecutive values with the element decoder
`f` (the unpacker's array-element loop). -/
def unpackN (f : List Nat → Option (MsgValue × List Nat)) :
    Nat → List Nat → Option (List MsgValue × List Nat)
  | 0, bs => some ([], bs)
  | n + 1, bs =>
    match f bs with
    | some (v, bs2) =>
      match unpackN f n bs2 with
      | some (l, rest) => some (v :: l, rest)
      | none => none
    | none => none

/-- Decode exactly `n` consecutive key-value pairs with the element
decoder `f` (the unpacker's map-entry loop). -/
def unpackN2 (f : List Nat → Option (MsgValue × List Nat)) :
    Nat → List Nat → Option (List (MsgValue × MsgValue) × List Nat)
  | 0, bs => some ([], bs)
  | n + 1, bs =>
    match f bs with
    | some (k, bs2) =>
      match f bs2 with
      | some (v, bs3) =>
        match unpackN2 f n bs3 with
        | some (ps, rest) => some ((k, v) :: ps, rest)
        | none => none
      | none => none
    | none => none

/-- One step of the msgpack decoder (`msgpack.unpackb` dispatch on the
tag byte), decoding nested values with `f`: returns the value and the
unconsumed rest.  The tag tests are the disjoint ranges of the msgpack
format (order among them is immaterial); tags 0xc1, 0xc7-0xcb and
0xd4-0xd8 (invalid, ext, float) are decode failures in this model. -/
def unpackCore (f : List Nat → Option (MsgValue × List Nat)) :
    List Nat → Option (MsgValue × List Nat)
  | [] => none
  | b :: bs =>
    if 256 ≤ b then none
    else if b < 0x80 then some (.int (b : Int), bs)
    else if 0xe0 ≤ b then some (.int ((b : Int) - 256), bs)
    else if b < 0x90 then
      match unpackN2 f (b - 0x80) bs with
      | some (ps, rest) => some (.map ps, rest)
      | none => none
    else if b < 0xa0 then
      match unpackN f (b - 0x90) bs with
      | some (l, rest) => some (.arr l, rest)
      | none => none
    else if b < 0xc0 then
      match takeExact (b - 0xa0) bs with
      | some (s, rest) => some (.str s, rest)
      | none => none
    else if b = 0xc0 then some (.nil, bs)
    else if b = 0xc2 then some (.bool false, bs)
    else if b = 0xc3 then some (.bool true, bs)
    else if b = 0xc4 then
      match bs with
      | n :: bs2 =>
        match takeExact n bs2 with
        | some (d, rest) => some (.bin d, rest)
        | none => none
      | [] => none
    else if b = 0xc5 then
      match bs with
      | b1 :: b0 :: bs2 =>
        match takeExact (be2v b1 b0) bs2 with
        | some (d, rest) => some (.bin d, rest)
        | none => none
      | _ => none
    else if b = 0xc6 then
      match bs with
      | b3 :: b2 :: b1 :: b0 :: bs2 =>
        match takeExact (be4v b3 b2 b1 b0) bs2 with
        | some (d, rest) => some (.bin d, rest)
        | none => none
      | _ => none
    else if b = 0xcc then
      match bs with
      | u :: bs2 => some (.int (u : Int), bs2)
      | [] => none
    else if b = 0xcd then
      match bs with
      | b1 :: b0 :: bs2 => some (.int (be2v b1 b0 : Nat), bs2)
      | _ => none
    else if b = 0xce then
      match bs with
      | b3 :: b2 :: b1 :: b0 :: bs2 => some (.int (be4v b3 b2 b1 b0 : Nat), bs2)
      | _ => none
    else if b = 0xcf then
      match bs with
      | b7 :: b6 :: b5 :: b4 :: b3 :: b2 :: b1 :: b0 :: bs2 =>
        some (.int (be8v b7 b6 b5 b4 b3 b2 b1 b0 : Nat), bs2)
      | _ => none
    else if b = 0xd0 then
      match bs with
      | u :: bs2 =>
        some (.int (if 128 ≤ u then (u : Int) - 256 else (u : Int)), bs2)
      | [] => none
    else if b = 0xd1 then
      match bs with
      | b1 :: b0 :: bs2 =>
        some (.int (if 32768 ≤ be2v b1 b0 then (be2v b1 b0 : Int) - 65536
                    else (be2v b1 b0 : Int)), bs2)
      | _ => none
    else if b = 0xd2 then
      match bs with
      | b3 :: b2 :: b1 :: b0 :: bs2 =>
        some (.int (if 2147483648 ≤ be4v b3 b2 b1 b0 then
                      (be4v b3 b2 b1 b0 : Int) - 4294967296
                    else (be4v b3 b2 b1 b0 : Int)), bs2)
      | _ => none
    else if b = 0xd3 then
      match bs with
      | b7 :: b6 :: b5 :: b4 :: b3 :: b2 :: b1 :: b0 :: bs2 =>
        some (.int (if 9223372036854775808 ≤ be8v b7 b6 b5 b4 b3 b2 b1 b0 then
                      (be8v b7 b6 b5 b4 b3 b2 b1 b0 : Int) - 18446744073709551616
                    else (be8v b7 b6 b5 b4 b3 b2 b1 b0 : Int)), bs2)
      | _ => none
    else if b = 0xd9 then
      match bs with
      | n :: bs2 =>
        match takeExact n bs2 with
        | some (s, rest) => some (.str s, rest)
        | none => none
      | [] => none
    else if b = 0xda then
      match bs with
      | b1 :: b0 :: bs2 =>
        match takeExact (be2v b1 b0) bs2 with
        | some (s, rest) => some (.str s, rest)
        | none => none
      | _ => none
    else if b = 0xdb then
      match bs with
      | b3 :: b2 :: b1 :: b0 :: bs2 =>
        match takeExact (be4v b3 b2 b1 b0) bs2 with
        | some (s, rest) => some (.str s, rest)
        | none => none
      | _ => none
    else if b = 0xdc then
      match bs with
      | b1 :: b0 :: bs2 =>
        match unpackN f (be2v b1 b0) bs2 with
        | some (l, rest) => some (.arr l, rest)
        | none => none
      | _ => none
    else if b = 0xdd then
      match bs with
      | b3 :: b2 :: b1 :: b0 :: bs2 =>
        match unpackN f (be4v b3 b2 b1 b0) bs2 with
        | some (l, rest) => some (.arr l, rest)
        | none => none
      | _ => none
    else if b = 0xde then
      match bs with
      | b1 :: b0 :: bs2 =>
        match unpackN2 f (be2v b1 b0) bs2 with
        | some (ps, rest) => some (.map ps, rest)
        | none => none
      | _ => none
    else if b = 0xdf then
      match bs with
      | b3 :: b2 :: b1 :: b0 :: bs2 =>
        match unpackN2 f (be4v b3 b2 b1 b0) bs2 with
        | some (ps, rest) => some (.map ps, rest)
        | none => none
      | _ => none
    else none

/-- The recursive msgpack decoder: `fuel` bounds the nesting depth
(each level of nesting consumes at least its tag byte, so
`length + 1` fuel — what `unpackb` supplies — covers any stream). -/
def unpack : Nat → List Nat → Option (MsgValue × List Nat)
  | 0, _ => none
  | fuel + 1, bs => unpackCore (unpack fuel) bs

/-- `msgpack.unpackb(data, raw=False)`: decode one value and require
all input consumed ("extra data" otherwise).  A byte of fuel per input
byte plus one covers any stream, since every decoder step consumes at
least the tag byte of its value. -/
def unpackb (data : List Nat) : Option MsgValue :=
  match unpack (data.length + 1) data with
  | some (v, []) => some v
  | _ => none

/-! ### Codec round-trip lemmas -/

theorem nodes_pos : ∀ v : MsgValue, 1 ≤ nodes v := by
  intro v
  cases v <;> simp [nodes]

theorem be2_inv (n : Nat) (h : n < 65536) :
    be2v (n / 256 % 256) (n % 256) = n := by
  simp only [be2v]
  omega

theorem be4_inv (n : Nat) (h : n < 4294967296) :
    be4v (n / 16777216 % 256) (n / 65536 % 256) (n / 256 % 256) (n % 256) = n := by
  simp only [be4v]
  omega

theorem be8_inv (n : Nat) (h : n < 18446744073709551616) :
    be8v (n / 72057594037927936 % 256) (n / 281474976710656 % 256)
      (n / 1099511627776 % 256) (n / 4294967296 % 256) (n / 16777216 % 256)
      (n / 65536 % 256) (n / 256 % 256) (n % 256) = n := by
  simp only [be8v]
  omega

theorem takeExact_append (s rest : List Nat) :
    takeExact s.length (s ++ rest) = some (s, rest) := by
  unfold takeExact
  rw [if_neg (by simp), List.take_left, List.drop_left]

theorem unpack_posfix (fuel b : Nat) (bs : List Nat) (h : b < 128) :
    unpack (fuel + 1) (b :: bs) = some (.int (b : Int), bs) := by
  simp only [unpack, unpackCore]
  rw [if_neg (by omega), if_pos h]

theorem unpack_negfix (fuel b : Nat) (bs : List Nat) (h1 : 224 ≤ b)
    (h2 : b < 256) :
    unpack (fuel + 1) (b :: bs) = some (.int ((b : Int) - 256), bs) := by
  simp only [unpack, unpackCore]
  rw [if_neg (by omega), if_neg (by omega), if_pos (by omega)]

theorem unpack_fixstr (fuel L : Nat) (bs : List Nat) (h : L < 32) :
    unpack (fuel + 1) ((160 + L) :: bs) =
      (match takeExact L bs with
       | some (s, rest) => some (.str s, rest)
       | none => none) := by
  simp only [unpack, unpackCore]
  rw [if_neg (by omega), if_neg (by omega), if_neg (by omega),
    if_neg (by omega), if_neg (by omega), if_pos (by omega)]
  rw [show 160 + L - 160 = L from by omega]

theorem unpack_fixarr (fuel L : Nat) (bs : List Nat) (h : L < 16) :
    unpack (fuel + 1) ((144 + L) :: bs) =
      (match unpackN (unpack fuel) L bs with
       | some (l, rest) => some (.arr l, rest)
       | none => none) := by
  simp only [unpack, unpackCore]
  rw [if_neg (by omega), if_neg (by omega), if_neg (by omega),
    if_neg (by omega), if_pos (by omega)]
  rw [show 144 + L - 144 = L from by omega]

theorem unpack_fixmap (fuel L : Nat) (bs : List Nat) (h : L < 16) :
    unpack (fuel + 1) ((128 + L) :: bs) =
      (match unpackN2 (unpack fuel) L bs with
       | some (ps, rest) => some (.map ps, rest)
       | none => none) := by
  simp only [unpack, unpackCore]
  rw [if_neg (by omega), if_neg (by omega), if_neg (by omega),
    if_pos (by omega)]
  rw [show 128 + L - 128 = L from by omega]

theorem unpack_packInt (fuel : Nat) (n : Int) (rest : List Nat)
    (h1 : -(9223372036854775808 : Int) ≤ n)
    (h2 : n < 18446744073709551616) :
    unpack (fuel + 1) (packInt n ++ rest) = some (.int n, rest) := by
  by_cases hpos : 0 ≤ n
  · have hmn : (n.toNat : Int) = n := Int.toNat_of_nonneg hpos
    by_cases hA : n.toNat < 128
    · rw [show packInt n = [n.toNat] from by simp [packInt, hpos, hA]]
      rw [List.cons_append, List.nil_append, unpack_posfix fuel n.toNat rest hA,
        hmn]
    · by_cases hB : n.toNat < 256
      · rw [show packInt n = [0xcc, n.toNat] from by
          simp [packInt, hpos, hA, hB]]
        simp only [List.cons_append, List.nil_append]
        simp [unpack, unpackCore, hmn]
      · by_cases hC : n.toNat < 65536
        · rw [show packInt n = 0xcd :: be2 n.toNat from by
            simp [packInt, hpos, hA, hB, hC]]
          simp only [be2, List.cons_append, List.nil_append]
          simp [unpack, unpackCore, be2_inv n.toNat hC, hmn]
        · by_cases hD : n.toNat < 4294967296
          · rw [show packInt n = 0xce :: be4 n.toNat from by
              simp [packInt, hpos, hA, hB, hC, hD]]
            simp only [be4, List.cons_append, List.nil_append]
            simp [unpack, unpackCore, be4_inv n.toNat hD, hmn]
          · have hE : n.toNat < 18446744073709551616 := by omega
            rw [show packInt n = 0xcf :: be8 n.toNat from by
              simp [packInt, hpos, hA, hB, hC, hD]]
            simp only [be8, List.cons_append, List.nil_append]
            simp [unpack, unpackCore, be8_inv n.toNat hE, hmn]
  · by_cases hF : -32 ≤ n
    · rw [show packInt n = [(n + 256).toNat] from by simp [packInt, hpos, hF]]
      rw [List.cons_append, List.nil_append,
        unpack_negfix fuel (n + 256).toNat rest (by omega) (by omega)]
      rw [show ((((n + 256).toNat : Nat) : Int) - 256) = n from by omega]
    · by_cases hG : -128 ≤ n
      · rw [show packInt n = [0xd0, (n + 256).toNat] from by
          simp [packInt, hpos, hF, hG]]
        simp only [List.cons_append, List.nil_append]
        have hcond : 128 ≤ (n + 256).toNat := by omega
        simp [unpack, unpackCore, hcond]
        omega
      · by_cases hH : -32768 ≤ n
        · rw [show packInt n = 0xd1 :: be2 (n + 65536).toNat from by
            simp [packInt, hpos, hF, hG, hH]]
          simp only [be2, List.cons_append, List.nil_append]
          rw [show unpack (fuel + 1) (0xd1 :: (n + 65536).toNat / 256 % 256 ::
              (n + 65536).toNat % 256 :: rest) =
            some (.int (if 32768 ≤ be2v ((n + 65536).toNat / 256 % 256)
                  ((n + 65536).toNat % 256) then
                (be2v ((n + 65536).toNat / 256 % 256)
                  ((n + 65536).toNat % 256) : Int) - 65536
              else (be2v ((n + 65536).toNat / 256 % 256)
                  ((n + 65536).toNat % 256) : Int)), rest) from by
            simp [unpack, unpackCore]]
          rw [be2_inv (n + 65536).toNat (by omega)]
          rw [if_pos (by omega)]
          rw [show (((n + 65536).toNat : Int) - 65536) = n from by omega]
        · by_cases hI : -2147483648 ≤ n
          · rw [show packInt n = 0xd2 :: be4 (n + 4294967296).toNat from by
              simp [packInt, hpos, hF, hG, hH, hI]]
            simp only [be4, List.cons_append, List.nil_append]
            have hv : (n + 4294967296).toNat < 4294967296 := by omega
            simp only [unpack, unpackCore]
            rw [if_neg (by omega)]
            simp only [show ¬((0xd2 : Nat) < 0x80) from by omega, if_false]
            norm_num
            rw [be4_inv (n + 4294967296).toNat hv, if_pos (by omega)]
            rw [show (((n + 4294967296).toNat : Int) - 4294967296) = n from by
              omega]
          · rw [show packInt n = 0xd3 :: be8 (n + 18446744073709551616).toNat
                from by simp [packInt, hpos, hF, hG, hH, hI]]
            simp only [be8, List.cons_append, List.nil_append]
            have hv : (n + 18446744073709551616).toNat <
                18446744073709551616 := by omega
            simp only [unpack, unpackCore]
            rw [if_neg (by omega)]
            simp only [show ¬((0xd3 : Nat) < 0x80) from by omega, if_false]
            norm_num
            rw [be8_inv (n + 18446744073709551616).toNat hv,
              if_pos (by omega)]
            rw [show (((n + 18446744073709551616).toNat : Int) -
                18446744073709551616) = n from by omega]

theorem unpack_pack_str (fuel : Nat) (s rest : List Nat)
    (h32 : s.length < 4294967296) :
    unpack (fuel + 1) (pack (.str s) ++ rest) = some (.str s, rest) := by
  by_cases hA : s.length < 32
  · rw [show pack (.str s) = [160 + s.length] ++ s from by simp [pack, hA]]
    simp only [List.cons_append, List.nil_append, List.append_assoc]
    rw [unpack_fixstr fuel s.length (s ++ rest) hA, takeExact_append]
  · by_cases hB : s.length < 256
    · rw [show pack (.str s) = [0xd9, s.length] ++ s from by
        simp [pack, hA, hB]]
      simp only [List.cons_append, List.nil_append, List.append_assoc]
      simp [unpack, unpackCore, takeExact_append]
    · by_cases hC : s.length < 65536
      · rw [show pack (.str s) = (0xda :: be2 s.length) ++ s from by
          simp [pack, hA, hB, hC]]
        simp only [be2, List.cons_append, List.nil_append, List.append_assoc]
        simp [unpack, unpackCore, be2_inv s.length hC, takeExact_append]
      · rw [show pack (.str s) = (0xdb :: be4 s.length) ++ s from by
          simp [pack, hA, hB, hC]]
        simp only [be4, List.cons_append, List.nil_append, List.append_assoc]
        simp [unpack, unpackCore, be4_inv s.length h32, takeExact_append]

theorem unpack_pack_bin (fuel : Nat) (d rest : List Nat)
    (h32 : d.length < 4294967296) :
    unpack (fuel + 1) (pack (.bin d) ++ rest) = some (.bin d, rest) := by
  by_cases hA : d.length < 256
  · rw [show pack (.bin d) = [0xc4, d.length] ++ d from by simp [pack, hA]]
    simp only [List.cons_append, List.nil_append, List.append_assoc]
    simp [unpack, unpackCore, takeExact_append]
  · by_cases hB : d.length < 65536
    · rw [show pack (.bin d) = (0xc5 :: be2 d.length) ++ d from by
        simp [pack, hA, hB]]
      simp only [be2, List.cons_append, List.nil_append, List.append_assoc]
      simp [unpack, unpackCore, be2_inv d.length hB, takeExact_append]
    · rw [show pack (.bin d) = (0xc6 :: be4 d.length) ++ d from by
        simp [pack, hA, hB]]
      simp only [be4, List.cons_append, List.nil_append, List.append_assoc]
      simp [unpack, unpackCore, be4_inv d.length h32, takeExact_append]

theorem unpackN_packList (f : List Nat → Option (MsgValue × List Nat)) :
    ∀ l : List MsgValue,
      (∀ v ∈ l, ∀ r : List Nat, f (pack v ++ r) = some (v, r)) →
      ∀ rest : List Nat,
        unpackN f l.length (packList l ++ rest) = some (l, rest) := by
  intro l
  induction l with
  | nil => intro _ rest; simp [unpackN, packList]
  | cons v vs ih =>
    intro hf rest
    show unpackN f (vs.length + 1) ((pack v ++ packList vs) ++ rest) = _
    simp only [unpackN]
    rw [List.append_assoc, hf v (List.mem_cons_self v vs) (packList vs ++ rest)]
    simp only [ih (fun w hw r => hf w (List.mem_cons_of_mem v hw) r) rest]

theorem unpackN2_packPairs (f : List Nat → Option (MsgValue × List Nat)) :
    ∀ ps : List (MsgValue × MsgValue),
      (∀ p ∈ ps, (∀ r : List Nat, f (pack p.1 ++ r) = some (p.1, r)) ∧
        (∀ r : List Nat, f (pack p.2 ++ r) = some (p.2, r))) →
      ∀ rest : List Nat,
        unpackN2 f ps.length (packPairs ps ++ rest) = some (ps, rest) := by
  intro ps
  induction ps with
  | nil => intro _ rest; simp [unpackN2, packPairs]
  | cons p ps ih =>
    intro hf rest
    obtain ⟨k, v⟩ := p
    show unpackN2 f (ps.length + 1) ((pack k ++ pack v ++ packPairs ps) ++ rest) = _
    simp only [unpackN2, List.append_assoc,
      (hf (k, v) (List.mem_cons_self _ _)).1,
      (hf (k, v) (List.mem_cons_self _ _)).2,
      ih (fun q hq => hf q (List.mem_cons_of_mem _ hq))]

theorem validList_mem : ∀ (l : List MsgValue) (v : MsgValue),
    validList l = true → v ∈ l → valid v = true := by
  intro l
  induction l with
  | nil => intro v _ hv; exact absurd hv (List.not_mem_nil v)
  | cons w ws ih =>
    intro v hval hv
    simp only [validList, Bool.and_eq_true] at hval
    rcases List.mem_cons.1 hv with rfl | hv
    · exact hval.1
    · exact ih v hval.2 hv

theorem nodesList_mem_le : ∀ (l : List MsgValue) (v : MsgValue),
    v ∈ l → nodes v ≤ nodesList l := by
  intro l
  induction l with
  | nil => intro v hv; exact absurd hv (List.not_mem_nil v)
  | cons w ws ih =>
    intro v hv
    simp only [nodesList]
    rcases List.mem_cons.1 hv with rfl | hv
    · omega
    · have := ih v hv; omega

theorem validPairs_mem : ∀ (ps : List (MsgValue × MsgValue))
    (p : MsgValue × MsgValue), validPairs ps = true → p ∈ ps →
    valid p.1 = true ∧ valid p.2 = true := by
  intro ps
  induction ps with
  | nil => intro p _ hp; exact absurd hp (List.not_mem_nil p)
  | cons q qs ih =>
    intro p hval hp
    obtain ⟨k, v⟩ := q
    simp only [validPairs, Bool.and_eq_true] at hval
    rcases List.mem_cons.1 hp with rfl | hp
    · exact ⟨hval.1.1, hval.1.2⟩
    · exact ih p hval.2 hp

theorem nodesPairs_mem_le : ∀ (ps : List (MsgValue × MsgValue))
    (p : MsgValue × MsgValue), p ∈ ps →
    nodes p.1 + nodes p.2 ≤ nodesPairs ps := by
  intro ps
  induction ps with
  | nil => intro p hp; exact absurd hp (List.not_mem_nil p)
  | cons q qs ih =>
    intro p hp
    obtain ⟨k, v⟩ := q
    simp only [nodesPairs]
    rcases List.mem_cons.1 hp with rfl | hp
    · show nodes k + nodes v ≤ nodes k + nodes v + nodesPairs qs
      omega
    · have := ih p hp; omega

/-- Round-trip: decoding an encoded value with enough fuel returns the
value and the unconsumed rest. -/
theorem unpack_pack : ∀ (fuel : Nat) (v : MsgValue) (rest : List Nat),
    valid v = true → nodes v ≤ fuel →
    unpack fuel (pack v ++ rest) = some (v, rest) := by
  intro fuel
  induction fuel with
  | zero => intro v rest _ hn; have := nodes_pos v; omega
  | succ fuel ih =>
    intro v rest hval hn
    cases v with
    | nil => simp [pack, unpack, unpackCore]
    | bool b => cases b <;> simp [pack, unpack, unpackCore]
    | int n =>
      simp only [valid, Bool.and_eq_true, decide_eq_true_eq] at hval
      exact unpack_packInt fuel n rest hval.1 hval.2
    | str s =>
      simp only [valid, Bool.and_eq_true, decide_eq_true_eq] at hval
      exact unpack_pack_str fuel s rest hval.1
    | bin d =>
      simp only [valid, Bool.and_eq_true, decide_eq_true_eq] at hval
      exact unpack_pack_bin fuel d rest hval.1
    | arr l =>
      simp only [valid, Bool.and_eq_true, decide_eq_true_eq] at hval
      have hnl : nodesList l ≤ fuel := by
        simp only [nodes] at hn; omega
      have helem : ∀ w ∈ l, ∀ r : List Nat,
          unpack fuel (pack w ++ r) = some (w, r) := by
        intro w hw r
        exact ih w r (validList_mem l w hval.2 hw)
          (le_trans (nodesList_mem_le l w hw) hnl)
      by_cases hA : l.length < 16
      · rw [show pack (.arr l) = [144 + l.length] ++ packList l from by
          simp [pack, hA]]
        simp only [List.cons_append, List.nil_append, List.append_assoc]
        rw [unpack_fixarr fuel l.length _ hA]
        simp only [unpackN_packList (unpack fuel) l helem rest]
      · by_cases hB : l.length < 65536
        · rw [show pack (.arr l) = (0xdc :: be2 l.length) ++ packList l from by
            simp [pack, hA, hB]]
          simp only [be2, List.cons_append, List.nil_append, List.append_assoc]
          simp [unpack, unpackCore, be2_inv l.length hB,
            unpackN_packList (unpack fuel) l helem rest]
        · rw [show pack (.arr l) = (0xdd :: be4 l.length) ++ packList l from by
            simp [pack, hA, hB]]
          simp only [be4, List.cons_append, List.nil_append, List.append_assoc]
          simp [unpack, unpackCore, be4_inv l.length hval.1,
            unpackN_packList (unpack fuel) l helem rest]
    | map ps =>
      simp only [valid, Bool.and_eq_true, decide_eq_true_eq] at hval
      have hnp : nodesPairs ps ≤ fuel := by
        simp only [nodes] at hn; omega
      have helem : ∀ p ∈ ps, (∀ r : List Nat,
          unpack fuel (pack p.1 ++ r) = some (p.1, r)) ∧
          (∀ r : List Nat, unpack fuel (pack p.2 ++ r) = some (p.2, r)) := by
        intro p hp
        have hv := validPairs_mem ps p hval.2 hp
        have hnle := nodesPairs_mem_le ps p hp
        have h1 := nodes_pos p.1
        have h2 := nodes_pos p.2
        exact ⟨fun r => ih p.1 r hv.1 (by omega),
               fun r => ih p.2 r hv.2 (by omega)⟩
      by_cases hA : ps.length < 16
      · rw [show pack (.map ps) = [128 + ps.length] ++ packPairs ps from by
          simp [pack, hA]]
        simp only [List.cons_append, List.nil_append, List.append_assoc]
        rw [unpack_fixmap fuel ps.length _ hA]
        simp only [unpackN2_packPairs (unpack fuel) ps helem rest]
      · by_cases hB : ps.length < 65536
        · rw [show pack (.map ps) = (0xde :: be2 ps.length) ++ packPairs ps
              from by simp [pack, hA, hB]]
          simp only [be2, List.cons_append, List.nil_append, List.append_assoc]
          simp [unpack, unpackCore, be2_inv ps.length hB,
            unpackN2_packPairs (unpack fuel) ps helem rest]
        · rw [show pack (.map ps) = (0xdf :: be4 ps.length) ++ packPairs ps
              from by simp [pack, hA, hB]]
          simp only [be4, List.cons_append, List.nil_append, List.append_assoc]
          simp [unpack, unpackCore, be4_inv ps.length hval.1,
            unpackN2_packPairs (unpack fuel) ps helem rest]

theorem packInt_length_pos (n : Int) : 1 ≤ (packInt n).length := by
  simp only [packInt]
  split_ifs <;> simp [be2, be4, be8]

mutual
theorem nodes_le_pack_length : ∀ v : MsgValue, nodes v ≤ (pack v).length
  | .nil => by simp [nodes, pack]
  | .bool b => by cases b <;> simp [nodes, pack]
  | .int n => by
    have := packInt_length_pos n
    simp only [nodes, pack]
    omega
  | .str s => by
    simp only [nodes, pack]
    split_ifs <;> simp [be2, be4]
  | .bin d => by
    simp only [nodes, pack]
    split_ifs <;> simp [be2, be4]
  | .arr l => by
    have h := nodesList_le_packList_length l
    simp only [nodes, pack]
    split_ifs <;> simp [be2, be4] <;> omega
  | .map ps => by
    have h := nodesPairs_le_packPairs_length ps
    simp only [nodes, pack]
    split_ifs <;> simp [be2, be4] <;> omega
theorem nodesList_le_packList_length : ∀ l : List MsgValue,
    nodesList l ≤ (packList l).length
  | [] => by simp [nodesList, packList]
  | v :: vs => by
    have h1 := nodes_le_pack_length v
    have h2 := nodesList_le_packList_length vs
    simp only [nodesList, packList, List.length_append]
    omega
theorem nodesPairs_le_packPairs_length : ∀ ps : List (MsgValue × MsgValue),
    nodesPairs ps ≤ (packPairs ps).length
  | [] => by simp [nodesPairs, packPairs]
  | (k, v) :: ps => by
    have h1 := nodes_le_pack_length k
    have h2 := nodes_le_pack_length v
    have h3 := nodesPairs_le_packPairs_length ps
    simp only [nodesPairs, packPairs, List.length_append]
    omega
end

/-- `unpackb ∘ packb` is the identity on packable values. -/
theorem unpackb_pack (v : MsgValue) (hv : valid v = true) :
    unpackb (pack v) = some v := by
  unfold unpackb
  have hfuel : nodes v ≤ (pack v).length + 1 := by
    have := nodes_le_pack_length v; omega
  have h := unpack_pack ((pack v).length + 1) v [] hv hfuel
  rw [List.append_nil] at h
  rw [h]

/-! ### RPC envelopes (protocol.py `serialize_call` /
`deserialize_response`) -/

/-- UTF-8 bytes of `"call_id"`. -/
def keyCallId : List Nat := [99, 97, 108, 108, 95, 105, 100]

/-- UTF-8 bytes of `"request"`. -/
def keyRequest : List Nat := [114, 101, 113, 117, 101, 115, 116]

/-- UTF-8 bytes of `"method"`. -/
def keyMethod : List Nat := [109, 101, 116, 104, 111, 100]

/-- UTF-8 bytes of `"args"`. -/
def keyArgs : List Nat := [97, 114, 103, 115]

/-- UTF-8 bytes of `"response"`. -/
def keyResponse : List Nat := [114, 101, 115, 112, 111, 110, 115, 101]

/-- UTF-8 bytes of `"result"`. -/
def keyResult : List Nat := [114, 101, 115, 117, 108, 116]

/-- UTF-8 bytes of `"error"`. -/
def keyError : List Nat := [101, 114, 114, 111, 114]

/-- UTF-8 bytes of `"code"`. -/
def keyCode : List Nat := [99, 111, 100, 101]

/-- UTF-8 bytes of `"message"`. -/
def keyMessage : List Nat := [109, 101, 115, 115, 97, 103, 101]

/-- Python dict string lookup on a decoded msgpack map: the LAST binding
of the key wins (dict construction overwrites duplicates); a non-string
key never equals a string key. -/
def getKey : List (MsgValue × MsgValue) → List Nat → Option MsgValue
  | [], _ => none
  | (k', v) :: rest, k =>
    match getKey rest k with
    | some r => some r
    | none =>
      match k' with
      | .str s => if s = k then some v else none
      | _ => none

/-- Python's `is None` on a decoded msgpack value. -/
def isNil : MsgValue → Bool
  | .nil => true
  | _ => false

/-- `serialize_call` (protocol.py lines 96-114):
`msgpack.packb({"call_id": call_id, "request": {"method": method,
"args": args}}, use_bin_type=True)`, with the dict fields in insertion
order. -/
def serialize_call (call_id : Int) (method : List Nat)
    (args : List MsgValue) : List Nat :=
  pack (.map [(.str keyCallId, .int call_id),
              (.str keyRequest, .map [(.str keyMethod, .str method),
                                      (.str keyArgs, .arr args)])])

/-- Result of `deserialize_response`: the `(call_id, result, error)`
tuple, or a raised `DeserializationError`. -/
inductive DeserializedResponse where
  | ok (call_id : MsgValue) (result : Option MsgValue)
      (err : Option (MsgValue × MsgValue))
  | error

/-- The `elif "error" in message and message["error"] is not None`
branch of `deserialize_response`, and the final `else raise`.  A
missing `code`/`message` key or a non-dict error value raises
`KeyError`/`TypeError`, caught as `DeserializationError`. -/
def responseErrBranch (ps : List (MsgValue × MsgValue)) (cid : MsgValue) :
    DeserializedResponse :=
  match getKey ps keyError with
  | some e =>
    if isNil e then .error
    else
      match e with
      | .map eps =>
        match getKey eps keyCode, getKey eps keyMessage with
        | some c, some m => .ok cid none (some (c, m))
        | _, _ => .error
      | _ => .error
  | none => .error

/-- `deserialize_response` (protocol.py lines 117-159):
`msgpack.unpackb(data, raw=False)`, then `message["call_id"]`; if
`"response"` is present and not None, return its `"result"` field when
it is a dict containing one (else the response value itself as a
backward-compatibility fallback); elif `"error"` is present and not
None, return its `code` and `message`; else raise.  Unpack failures,
missing keys and type errors raise `DeserializationError`. -/
def deserialize_response (data : List Nat) : DeserializedResponse :=
  match unpackb data with
  | some (.map ps) =>
    match getKey ps keyCallId with
    | some cid =>
      match getKey ps keyResponse with
      | some rd =>
        if isNil rd then responseErrBranch ps cid
        else
          match rd with
          | .map rps =>
            match getKey rps keyResult with
            | some r => .ok cid (some r) none
            | none => .ok cid (some rd) none
          | _ => .ok cid (some rd) none
      | none => responseErrBranch ps cid
    | none => .error
  | _ => .error

/-- Modelled from the spec: the daemon-side reply encoder (the Rust
`assassinate_daemon`, not under src/) for a successful reply — §3 "RPC
Envelope": `{call_id: u64, response: {result: any}}`, in the same
self-describing binary map encoding the client decodes. -/
def serialize_response_ok (call_id : Int) (result : MsgValue) : List Nat :=
  pack (.map [(.str keyCallId, .int call_id),
              (.str keyResponse, .map [(.str keyResult, result)])])

/-- Modelled from the spec: the daemon-side reply encoder (the Rust
`assassinate_daemon`, not under src/) for an error reply — §3 "RPC
Envelope": `{call_id: u64, error: {code: string, message: string}}`. -/
def serialize_response_err (call_id : Int) (code msg : List Nat) : List Nat :=
  pack (.map [(.str keyCallId, .int call_id),
              (.str keyError, .map [(.str keyCode, .str code),
                                    (.str keyMessage, .str msg)])])

/-- Modelled from the spec: the daemon-side request decoder (the Rust
`assassinate_daemon`, not under src/) — §3 "RPC Envelope": a request is
`{call_id: u64, request: {method: string, args: array}}`; the decoder
recovers the three fields. -/
def deserialize_call (data : List Nat) :
    Option (MsgValue × MsgValue × MsgValue) :=
  match unpackb data with
  | some (.map ps) =>
    match getKey ps keyCallId, getKey ps keyRequest with
    | some cid, some (.map rps) =>
      match getKey rps keyMethod, getKey rps keyArgs with
      | some m, some a => some (cid, m, a)
      | _, _ => none
    | _, _ => none
  | _ => none

/-- Claim C5: the codec round-trips every envelope it produces.
Decoding an encoded call `{call_id, method, args}` recovers `call_id`,
`method` and `args` exactly; decoding an encoded success reply recovers
the `call_id` and `result` exactly; decoding an encoded error reply
recovers the `call_id` and the `{code, message}` error exactly. -/
theorem C5_envelope_roundtrip (call_id : Int) (method : List Nat)
    (args : List MsgValue) (result : MsgValue) (code msg : List Nat)
    (hcid : valid (.int call_id) = true)
    (hm : valid (.str method) = true)
    (hargs : valid (.arr args) = true)
    (hres : valid result = true)
    (hcode : valid (.str code) = true)
    (hmsg : valid (.str msg) = true) :
    deserialize_call (serialize_call call_id method args) =
      some (.int call_id, .str method, .arr args) ∧
    deserialize_response (serialize_response_ok call_id result) =
      .ok (.int call_id) (some result) none ∧
    deserialize_response (serialize_response_err call_id code msg) =
      .ok (.int call_id) none (some (.str code, .str msg)) := by
  have hcid' : -9223372036854775808 ≤ call_id ∧
      call_id < 18446744073709551616 := by
    simpa [valid, Bool.and_eq_true, decide_eq_true_eq] using hcid
  have hm' : method.length < 4294967296 ∧ ∀ x ∈ method, x < 256 := by
    simpa [valid, Bool.and_eq_true, decide_eq_true_eq] using hm
  have hargs' : args.length < 4294967296 ∧ validList args = true := by
    simpa [valid, Bool.and_eq_true, decide_eq_true_eq] using hargs
  have hcode' : code.length < 4294967296 ∧ ∀ x ∈ code, x < 256 := by
    simpa [valid, Bool.and_eq_true, decide_eq_true_eq] using hcode
  have hmsg' : msg.length < 4294967296 ∧ ∀ x ∈ msg, x < 256 := by
    simpa [valid, Bool.and_eq_true, decide_eq_true_eq] using hmsg
  refine ⟨?_, ?_, ?_⟩
  · have hvalid : valid (.map [(.str keyCallId, .int call_id),
        (.str keyRequest, .map [(.str keyMethod, .str method),
                                (.str keyArgs, .arr args)])]) = true := by
      simp [valid, validPairs, validList, hcid, hm, hargs,
        keyCallId, keyRequest, keyMethod, keyArgs]
      exact ⟨hcid', hm', hargs'⟩
    rw [show serialize_call call_id method args = pack _ from rfl]
    simp only [deserialize_call, unpackb_pack _ hvalid]
    simp [getKey, keyCallId, keyRequest, keyMethod, keyArgs]
  · have hvalid : valid (.map [(.str keyCallId, .int call_id),
        (.str keyResponse, .map [(.str keyResult, result)])]) = true := by
      simp [valid, validPairs, validList, hcid, hres, keyCallId, keyResponse,
        keyResult]
      exact hcid'
    rw [show serialize_response_ok call_id result = pack _ from rfl]
    simp only [deserialize_response, unpackb_pack _ hvalid]
    simp [getKey, keyCallId, keyResponse, keyResult, isNil]
  · have hvalid : valid (.map [(.str keyCallId, .int call_id),
        (.str keyError, .map [(.str keyCode, .str code),
                              (.str keyMessage, .str msg)])]) = true := by
      simp [valid, validPairs, validList, hcid, hcode, hmsg, keyCallId,
        keyError, keyCode, keyMessage]
      exact ⟨hcid', hcode', hmsg'⟩
    rw [show serialize_response_err call_id code msg = pack _ from rfl]
    simp only [deserialize_response, unpackb_pack _ hvalid]
    simp [getKey, responseErrBranch, keyCallId, keyResponse, keyError,
      keyCode, keyMessage, isNil]

/-- Witness for C5 at a concrete envelope: call id 1, method "ping",
args ["hi"], result "ok", error NOT_FOUND/"missing". -/
theorem C5_envelope_roundtrip_witness :
    deserialize_call (serialize_call 1 [112, 105, 110, 103]
        [.str [104, 105]]) =
      some (.int 1, .str [112, 105, 110, 103], .arr [.str [104, 105]]) ∧
    deserialize_response (serialize_response_ok 1 (.str [111, 107])) =
      .ok (.int 1) (some (.str [111, 107])) none ∧
    deserialize_response (serialize_response_err 1
        [78, 79, 84, 95, 70, 79, 85, 78, 68] [109, 105, 115, 115, 105, 110, 103]) =
      .ok (.int 1) none (some (.str [78, 79, 84, 95, 70, 79, 85, 78, 68],
        .str [109, 105, 115, 115, 105, 110, 103])) :=
  C5_envelope_roundtrip 1 [112, 105, 110, 103] [.str [104, 105]]
    (.str [111, 107]) [78, 79, 84, 95, 70, 79, 85, 78, 68]
    [109, 105, 115, 115, 105, 110, 103]
    (by decide) (by decide) (by decide) (by decide) (by decide) (by decide)

end Assassinate
